import Mathlib

/-!
Verification of the multi-datacenter fan-out aggregation behaviour of the
`sdc` CLI (node-triton predecessor).  The consumer side is embedded from
`lib/cli.js` (`CLI.prototype.do_machines`, `do_profile`, `do_dcs`); the
aggregator (`SDC.prototype.listMachines` in `lib/sdc.js`), the
`MultiError` class (`lib/errors.js`) and `deepObjCopy` (`lib/common.js`)
are not part of the provided source tree and are modelled from the spec
where a claim needs them.
-/

namespace Sdc

/-- A machine record as returned by one DC.  The `dc` field is the tag that
`do_machines` writes onto every record before accumulating it (in JS the
property is added dynamically; here it is a field whose incoming value is
irrelevant because the handler always overwrites it).  `id` stands for the
rest of the payload (id, name, state, created, ...). -/
structure Machine where
  dc : String
  id : String
  deriving Repr, DecidableEq, Inhabited

/-- An error produced by one DC.  The `dc` field is the tag that the
`dcError` handler writes onto the error object (`dcErr.dc = dc`);
`cause` stands for the underlying failure information. -/
structure DcErr where
  dc : String
  cause : String
  deriving Repr, DecidableEq, Inhabited

/-- One event of the stream returned by `this.sdc.listMachines()`:
`data(dc, dcMachines)`, `dcError(dc, dcErr)`, or the terminating `end`
event (called `done` here). -/
inductive Event where
  | data (dc : String) (dcMachines : List Machine)
  | dcError (dc : String) (dcErr : DcErr)
  | done
  deriving Repr, DecidableEq

/-- The accumulation state of `do_machines`: the local arrays
`var machines = []` and `var errs = []`. -/
structure ConsumerState where
  machines : List Machine
  errs : List DcErr
  deriving Repr, DecidableEq

/-- The `data` handler of `do_machines`: for each record of `dcMachines`,
set its `dc` property to the emitting DC and push it onto `machines`. -/
def onData (s : ConsumerState) (dc : String) (dcMachines : List Machine) :
    ConsumerState :=
  { s with machines := s.machines ++ dcMachines.map (fun m => { m with dc := dc }) }

/-- The `dcError` handler of `do_machines`: set the `dc` property on the
error object and push it onto `errs`. -/
def onDcError (s : ConsumerState) (dc : String) (dcErr : DcErr) :
    ConsumerState :=
  { s with errs := s.errs ++ [{ dcErr with dc := dc }] }

/-- Dispatch one stream event to the registered handlers.  The `done`
event has no `data`/`dcError` handler; it only terminates the stream. -/
def handleEvent (s : ConsumerState) : Event → ConsumerState
  | .data dc dcMachines => onData s dc dcMachines
  | .dcError dc dcErr => onDcError s dc dcErr
  | .done => s

/-- Accumulate a whole event stream, starting from the empty arrays. -/
def consume (es : List Event) : ConsumerState :=
  es.foldl handleEvent ⟨[], []⟩

/-- The error value `do_machines` hands to its callback:
`errs[0]` when there is exactly one accumulated error, or
`new errors.MultiError(errs)` when there are two or more.
`MultiError` (lib/errors.js, not under src/) is modelled from the spec as
a composite that preserves each constituent DcError. -/
inductive CliError where
  | single (e : DcErr)
  | multi (errs : List DcErr)
  deriving Repr, DecidableEq

/-- The `end` handler tail of `do_machines`:
`if (errs.length === 1) err = errs[0]; else if (errs.length > 1)
err = new errors.MultiError(errs);` and `callback(err)`. -/
def finalErr (errs : List DcErr) : Option CliError :=
  if errs.length == 1 then some (CliError.single errs.headI)
  else if errs.length > 1 then some (CliError.multi errs)
  else none

/-- An observable action of the `end` handler, in order: first the output
(`p(JSON.stringify(machines))` or `common.tabulate(machines, ...)`,
both rendering the accumulated `machines` array), then `callback(err)`. -/
inductive Action where
  | render (machines : List Machine)
  | callback (err : Option CliError)
  deriving Repr, DecidableEq

/-- Result of one invocation of `do_machines`. -/
inductive CmdResult where
  | helpShown
  | argError (msg : String)
  | completed (actions : List Action)
  deriving Repr, DecidableEq

/-- `CLI.prototype.do_machines`: help check, then the too-many-args
check, then subscribe to the stream of `this.sdc.listMachines()` and,
on `end`, render the accumulated machines and call back with the
computed error.  `stream` is the sequence of events the stream emits
before (and including) termination. -/
def do_machines (help : Bool) (args : List String) (stream : List Event) :
    CmdResult :=
  if help then .helpShown
  else if args.length > 1 then
    .argError ("too many args: " ++ String.intercalate "," args)
  else
    let s := consume stream
    .completed [Action.render s.machines, Action.callback (finalErr s.errs)]

/-- The records a single event contributes to `machines`, already tagged
with the emitting DC. -/
def taggedRecords : Event → List Machine
  | .data dc dcMachines => dcMachines.map (fun m => { m with dc := dc })
  | _ => []

/-- The errors a single event contributes to `errs`, already tagged. -/
def taggedErrs : Event → List DcErr
  | .dcError dc dcErr => [{ dcErr with dc := dc }]
  | _ => []

/-- The outcome event one DC contributes: `data` with the records on
success, `dcError` with the error on failure.
Modelled from the spec: the per-DC unit of work of
`SDC.prototype.listMachines` (lib/sdc.js) is not under src/; per spec
section 4.1 it calls the per-DC client once and emits `RecordBatch` on
success and `Failure` on failure. -/
def outcomeOf (client : String → Except DcErr (List Machine)) (dc : String) :
    Event :=
  match client dc with
  | .ok recs => Event.data dc recs
  | .error e => Event.dcError dc e

/-- The event stream of one aggregator run, observed in completion order
`sched` (any interleaving of the DC set, since no cross-DC ordering is
guaranteed), followed by the single `end`/`Done` event.
Modelled from the spec: `SDC.prototype.listMachines` (lib/sdc.js) is not
under src/; per spec section 4.1 the run produces exactly one outcome
event per DC, in any interleaving, and one `Done` after all outcomes. -/
def runEvents (client : String → Except DcErr (List Machine))
    (sched : List String) : List Event :=
  sched.map (outcomeOf client) ++ [Event.done]

/-- Whether an event is a per-DC outcome (`data` or `dcError`). -/
def isOutcome : Event → Bool
  | .data _ _ => true
  | .dcError _ _ => true
  | .done => false

/-- Whether an event is the outcome of the given DC. -/
def isOutcomeFor (dc : String) : Event → Bool
  | .data d _ => d == dc
  | .dcError d _ => d == dc
  | .done => false

/-- Whether an event is the terminating `done` event. -/
def isDone : Event → Bool
  | .done => true
  | _ => false

/-- The accumulated machines that carry the tag of the given DC. -/
def machinesFor (dc : String) (s : ConsumerState) : List Machine :=
  s.machines.filter (fun m => m.dc == dc)

/-- The accumulated errors that carry the tag of the given DC. -/
def errsFor (dc : String) (s : ConsumerState) : List DcErr :=
  s.errs.filter (fun e => e.dc == dc)

/-- Whether a command invocation failed on the too-many-args check. -/
def isTooManyArgs : CmdResult → Bool
  | .argError _ => true
  | _ => false

/-- Result of one invocation of `do_dcs`: rows of `{name, url}` built
from `this.sdc.config.dcs`. -/
inductive DcsResult where
  | helpShown
  | argError (msg : String)
  | listed (rows : List (String × String))
  deriving Repr, DecidableEq

/-- `CLI.prototype.do_dcs`: help check, too-many-args check, then map
the configured DC table to `{name, url}` rows and render them. -/
def do_dcs (help : Bool) (args : List String)
    (dcs : List (String × String)) : DcsResult :=
  if help then .helpShown
  else if args.length > 1 then
    .argError ("too many args: " ++ String.intercalate "," args)
  else
    .listed (dcs.map (fun nu => (nu.1, nu.2)))

/-- A dynamic JS value stored in a profile object field. -/
inductive Val where
  | str (s : String)
  | strs (l : List String)
  | undef
  deriving Repr, DecidableEq

/-- A JS object: an association list of named fields. -/
abbrev Obj := List (String × Val)

/-- Property read `o[k]`: `undef` when the field is absent. -/
def getField (o : Obj) (k : String) : Val :=
  match o.find? (fun kv => kv.1 == k) with
  | some kv => kv.2
  | none => Val.undef

/-- Property write `o[k] = v`: overwrite the field if present, append it
otherwise. -/
def setField (o : Obj) (k : String) (v : Val) : Obj :=
  if o.any (fun kv => kv.1 == k) then
    o.map (fun kv => if kv.1 == k then (k, v) else kv)
  else o ++ [(k, v)]

/-- The mutable object store: profile objects live at `Nat` addresses and
arrays of objects are lists of addresses, so aliasing between
`this.sdc.profiles` and the list `do_profile` annotates is explicit. -/
abbrev Heap := List Obj

/-- The part of `this.sdc` that `do_profile` touches: the heap, the
addresses of the profile objects, and `this.sdc.profile.name`. -/
structure SdcState where
  heap : Heap
  profileRefs : List Nat
  currProfileName : String
  deriving Repr, DecidableEq

/-- `common.deepObjCopy(this.sdc.profiles)`.
Modelled from the spec: `deepObjCopy` (lib/common.js) is not under src/;
it returns a deep copy, i.e. freshly allocated objects with equal
contents, leaving the originals untouched. -/
def deepObjCopy (heap : Heap) (refs : List Nat) : Heap × List Nat :=
  (heap ++ refs.map (fun r => heap.getD r []),
   (List.range refs.length).map (fun i => heap.length + i))

/-- One iteration of the annotation loop of `do_profile`:
`profs[i].curr = (profs[i].name === currProfileName ? '*' : ' ');`
then `profs[i].dcs = (profs[i].dcs ? profs[i].dcs : ['all']).join(',')`. -/
def annotateProfile (heap : Heap) (r : Nat) (currName : String) : Heap :=
  let o := heap.getD r []
  let o1 := setField o "curr"
    (Val.str (if getField o "name" == Val.str currName then "*" else " "))
  let dcsList := match getField o1 "dcs" with
    | Val.strs l => l
    | _ => ["all"]
  let o2 := setField o1 "dcs" (Val.str (String.intercalate "," dcsList))
  heap.set r o2

/-- Result of one invocation of `do_profile`: the rendered rows are the
annotated copies. -/
inductive ProfileResult where
  | helpShown
  | argError (msg : String)
  | listed (rows : List Obj)
  deriving Repr, DecidableEq

/-- `CLI.prototype.do_profile`: help check, too-many-args check, then
deep-copy `this.sdc.profiles`, annotate each copy with `curr` and the
joined `dcs` string, and render the copies.  Returns the result together
with the state after the call. -/
def do_profile (help : Bool) (args : List String) (st : SdcState) :
    ProfileResult × SdcState :=
  if help then (.helpShown, st)
  else if args.length > 1 then
    (.argError ("too many args: " ++ String.intercalate "," args), st)
  else
    let copied := deepObjCopy st.heap st.profileRefs
    let heap2 := copied.2.foldl
      (fun h r => annotateProfile h r st.currProfileName) copied.1
    (.listed (copied.2.map (fun r => heap2.getD r [])),
     { st with heap := heap2 })

/-- A concrete per-DC client used to instantiate theorems: `us-west`
fails, every other DC returns two records. -/
def clientW : String → Except DcErr (List Machine)
  | "us-west" => .error { dc := "", cause := "timeout" }
  | _ => .ok [{ dc := "", id := "m1" }, { dc := "", id := "m2" }]

/-- A concrete `this.sdc` state used to instantiate theorems: two
stored profiles, the current one named `a`. -/
def stW : SdcState :=
  { heap := [[("name", Val.str "a"), ("user", Val.str "u"),
              ("keyId", Val.str "k")],
             [("name", Val.str "b"), ("dcs", Val.strs ["east", "west"]),
              ("user", Val.str "v"), ("keyId", Val.str "l")]],
    profileRefs := [0, 1],
    currProfileName := "a" }

theorem foldl_handleEvent_machines (es : List Event) (s : ConsumerState) :
    (es.foldl handleEvent s).machines = s.machines ++ es.flatMap taggedRecords := by
  induction es generalizing s with
  | nil => simp
  | cons e es ih =>
    cases e with
    | data dc dcMachines =>
      simp [List.foldl_cons, ih, handleEvent, onData, taggedRecords,
        List.flatMap_cons, List.append_assoc]
    | dcError dc dcErr =>
      simp [List.foldl_cons, ih, handleEvent, onDcError, taggedRecords,
        List.flatMap_cons]
    | done =>
      simp [List.foldl_cons, ih, handleEvent, taggedRecords, List.flatMap_cons]

theorem foldl_handleEvent_errs (es : List Event) (s : ConsumerState) :
    (es.foldl handleEvent s).errs = s.errs ++ es.flatMap taggedErrs := by
  induction es generalizing s with
  | nil => simp
  | cons e es ih =>
    cases e with
    | data dc dcMachines =>
      simp [List.foldl_cons, ih, handleEvent, onData, taggedErrs,
        List.flatMap_cons]
    | dcError dc dcErr =>
      simp [List.foldl_cons, ih, handleEvent, onDcError, taggedErrs,
        List.flatMap_cons, List.append_assoc]
    | done =>
      simp [List.foldl_cons, ih, handleEvent, taggedErrs, List.flatMap_cons]

theorem consume_machines (es : List Event) :
    (consume es).machines = es.flatMap taggedRecords := by
  simpa [consume] using foldl_handleEvent_machines es ⟨[], []⟩

theorem consume_errs (es : List Event) :
    (consume es).errs = es.flatMap taggedErrs := by
  simpa [consume] using foldl_handleEvent_errs es ⟨[], []⟩

theorem isOutcome_outcomeOf (client : String → Except DcErr (List Machine))
    (d : String) : isOutcome (outcomeOf client d) = true := by
  cases h : client d <;> simp [outcomeOf, isOutcome, h]

theorem isOutcomeFor_outcomeOf (client : String → Except DcErr (List Machine))
    (dc d : String) : isOutcomeFor dc (outcomeOf client d) = (d == dc) := by
  cases h : client d <;> simp [outcomeOf, isOutcomeFor, h]

theorem isDone_outcomeOf (client : String → Except DcErr (List Machine))
    (d : String) : isDone (outcomeOf client d) = false := by
  cases h : client d <;> simp [outcomeOf, isDone, h]

/-- C1: for every run over a non-empty set of DCs, whatever the
completion order, the number of per-DC outcome events equals the number
of DCs queried, every DC contributes exactly one outcome (never both a
record batch and a failure, never neither), and exactly one `Done`
event follows after all outcomes. -/
theorem run_outcome_cardinality (dcs sched : List String)
    (client : String → Except DcErr (List Machine))
    (_hne : dcs ≠ []) (hnd : dcs.Nodup) (hperm : sched.Perm dcs) :
    (runEvents client sched).countP isOutcome = dcs.length ∧
    (∀ dc ∈ dcs, (runEvents client sched).countP (isOutcomeFor dc) = 1) ∧
    (runEvents client sched).countP isDone = 1 ∧
    (runEvents client sched).getLast? = some Event.done ∧
    ∀ e ∈ (runEvents client sched).dropLast, isOutcome e = true := by
  refine ⟨?_, ?_, ?_, ?_, ?_⟩
  · have hc : (isOutcome ∘ outcomeOf client) = fun _ => true :=
      funext fun d => isOutcome_outcomeOf client d
    simp [runEvents, List.countP_append, List.countP_map, hc,
      isOutcome, hperm.length_eq]
  · intro dc hdc
    have hcount : sched.count dc = 1 :=
      (hperm.count_eq dc).trans (List.count_eq_one_of_mem hnd hdc)
    have hc : (isOutcomeFor dc ∘ outcomeOf client) = fun d => d == dc :=
      funext fun d => isOutcomeFor_outcomeOf client dc d
    have hmap : (sched.map (outcomeOf client)).countP (isOutcomeFor dc)
        = sched.count dc := by
      rw [List.countP_map, hc]; rfl
    simp [runEvents, List.countP_append, hmap, hcount, isOutcomeFor]
  · have hc : (isDone ∘ outcomeOf client) = fun _ => false :=
      funext fun d => isDone_outcomeOf client d
    simp [runEvents, List.countP_append, List.countP_map, hc, isDone]
  · simp [runEvents, List.getLast?_concat]
  · intro e he
    rw [runEvents, List.dropLast_concat] at he
    obtain ⟨d, _, rfl⟩ := List.mem_map.mp he
    exact isOutcome_outcomeOf client d

theorem run_outcome_cardinality_witness :
    (runEvents clientW ["us-east", "us-west"]).countP isOutcome = 2 ∧
    (runEvents clientW ["us-east", "us-west"]).countP
      (isOutcomeFor "us-west") = 1 ∧
    (runEvents clientW ["us-east", "us-west"]).countP isDone = 1 := by
  have h := run_outcome_cardinality ["us-west", "us-east"]
    ["us-east", "us-west"] clientW (by decide) (by decide)
    (List.Perm.swap "us-west" "us-east" [])
  exact ⟨h.1, h.2.1 "us-west" (by decide), h.2.2.1⟩

theorem do_machines_run (es : List Event) :
    do_machines false [] es =
      .completed [Action.render (consume es).machines,
        Action.callback (finalErr (consume es).errs)] := rfl

theorem mem_machines_of_data (es : List Event) (dc : String)
    (dcMachines : List Machine) (hev : Event.data dc dcMachines ∈ es) :
    ∀ r ∈ dcMachines, { r with dc := dc } ∈ (consume es).machines := by
  intro r hr
  rw [consume_machines]
  exact List.mem_flatMap.mpr
    ⟨_, hev, by simpa [taggedRecords] using List.mem_map_of_mem _ hr⟩

theorem machines_mem_inv (es : List Event) (m : Machine)
    (hm : m ∈ (consume es).machines) :
    ∃ dc dcMachines, Event.data dc dcMachines ∈ es ∧ m.dc = dc ∧
      ∃ r ∈ dcMachines, m = { r with dc := dc } := by
  rw [consume_machines] at hm
  obtain ⟨ev, hev, hm⟩ := List.mem_flatMap.mp hm
  cases ev with
  | data dc l =>
    obtain ⟨r, hr, rfl⟩ := List.mem_map.mp (by simpa [taggedRecords] using hm)
    exact ⟨dc, l, hev, rfl, r, hr, rfl⟩
  | dcError dc e => simp [taggedRecords] at hm
  | done => simp [taggedRecords] at hm

theorem errs_mem_inv (es : List Event) (e : DcErr)
    (he : e ∈ (consume es).errs) :
    ∃ dc cause, Event.dcError dc cause ∈ es ∧ e = { cause with dc := dc } := by
  rw [consume_errs] at he
  obtain ⟨ev, hev, he⟩ := List.mem_flatMap.mp he
  cases ev with
  | data dc l => simp [taggedErrs] at he
  | dcError dc cause =>
    simp only [taggedErrs, List.mem_singleton] at he
    exact ⟨dc, cause, hev, he⟩
  | done => simp [taggedErrs] at he

/-- C2: every record delivered on a `data` event is accumulated tagged
with the emitting DC, and conversely every accumulated record carries
the tag of the `data` event it came from, so records from different DCs
are never conflated. -/
theorem machines_records_tagged (es : List Event) :
    (∀ dc dcMachines, Event.data dc dcMachines ∈ es →
      ∀ r ∈ dcMachines, { r with dc := dc } ∈ (consume es).machines) ∧
    ∀ m ∈ (consume es).machines, ∃ dc dcMachines,
      Event.data dc dcMachines ∈ es ∧ m.dc = dc ∧
      ∃ r ∈ dcMachines, m = { r with dc := dc } := by
  exact ⟨fun dc dcMachines hev => mem_machines_of_data es dc dcMachines hev,
    fun m hm => machines_mem_inv es m hm⟩

theorem machines_records_tagged_witness :
    ({ dc := "us-east", id := "m1" } : Machine) ∈
      (consume [Event.data "us-east" [{ dc := "", id := "m1" }]]).machines :=
  (machines_records_tagged [Event.data "us-east" [{ dc := "", id := "m1" }]]).1
    "us-east" [{ dc := "", id := "m1" }] (by simp)
    { dc := "", id := "m1" } (by simp)

/-- C5: when the stream completes with zero failures, `do_machines`
renders the accumulated records and calls back with no error, however
many records were received. -/
theorem no_failures_no_error (es : List Event)
    (h : (consume es).errs = []) :
    do_machines false [] es =
      .completed [Action.render (consume es).machines,
        Action.callback none] := by
  rw [do_machines_run, h]; rfl

theorem no_failures_no_error_witness :
    do_machines false [] [Event.data "dc1" [{ dc := "", id := "m1" }]] =
      .completed [Action.render [{ dc := "dc1", id := "m1" }],
        Action.callback none] :=
  no_failures_no_error [Event.data "dc1" [{ dc := "", id := "m1" }]] rfl

/-- C6: when exactly one failure was accumulated, the error handed to
the callback is that single DcError itself — still tagged with the DC
that produced it — not wrapped in a MultiError. -/
theorem single_failure_surfaced (es : List Event) (e : DcErr)
    (h : (consume es).errs = [e]) :
    do_machines false [] es =
      .completed [Action.render (consume es).machines,
        Action.callback (some (CliError.single e))] ∧
    ∃ dc cause, Event.dcError dc cause ∈ es ∧ e = { cause with dc := dc } := by
  constructor
  · rw [do_machines_run, h]; rfl
  · exact errs_mem_inv es e (by rw [h]; simp)

theorem single_failure_surfaced_witness :
    do_machines false []
      [Event.dcError "dc1" { dc := "", cause := "boom" }] =
      .completed [Action.render [],
        Action.callback (some (CliError.single
          { dc := "dc1", cause := "boom" }))] :=
  (single_failure_surfaced [Event.dcError "dc1" { dc := "", cause := "boom" }]
    { dc := "dc1", cause := "boom" } rfl).1

/-- C3: when two or more failures were accumulated, the callback
receives a single combined MultiError whose constituents are exactly
the accumulated errors, each still the tagged error of its originating
`dcError` event, none collapsed or dropped. -/
theorem multi_failures_multierror (es : List Event)
    (h : 2 ≤ (consume es).errs.length) :
    do_machines false [] es =
      .completed [Action.render (consume es).machines,
        Action.callback (some (CliError.multi (consume es).errs))] ∧
    (consume es).errs = es.flatMap taggedErrs := by
  constructor
  · rw [do_machines_run]
    have h1 : ((consume es).errs.length == 1) = false := by
      simp only [beq_eq_false_iff_ne, ne_eq]; omega
    have h2 : (consume es).errs.length > 1 := by omega
    simp [finalErr, h1, h2]
  · exact consume_errs es

theorem multi_failures_multierror_witness :
    do_machines false []
      [Event.dcError "a" { dc := "", cause := "x" },
       Event.dcError "b" { dc := "", cause := "y" }] =
      .completed [Action.render [],
        Action.callback (some (CliError.multi
          [{ dc := "a", cause := "x" }, { dc := "b", cause := "y" }]))] :=
  (multi_failures_multierror
    [Event.dcError "a" { dc := "", cause := "x" },
     Event.dcError "b" { dc := "", cause := "y" }] (by decide)).1

/-- C4: partial success is not a data-level error: when some DC
delivered records and at least one failure was accumulated, all
delivered records are still in the rendered list, the render action
precedes the callback, and the failures are reported through the
callback error — a failing DC never suppresses another DC's records. -/
theorem partial_success_renders_all (es : List Event)
    (dc : String) (dcMachines : List Machine)
    (hdata : Event.data dc dcMachines ∈ es)
    (hfail : (consume es).errs ≠ []) :
    ∃ err : CliError,
      do_machines false [] es =
        .completed [Action.render (consume es).machines,
          Action.callback (some err)] ∧
      ∀ r ∈ dcMachines, { r with dc := dc } ∈ (consume es).machines := by
  have hmem := mem_machines_of_data es dc dcMachines hdata
  match herr : (consume es).errs with
  | [] => exact absurd herr hfail
  | [e] =>
    exact ⟨CliError.single e, by rw [do_machines_run, herr]; rfl, hmem⟩
  | e1 :: e2 :: rest =>
    refine ⟨CliError.multi (e1 :: e2 :: rest), ?_, hmem⟩
    rw [do_machines_run, herr]
    have h1 : ((e1 :: e2 :: rest).length == 1) = false := by
      simp only [List.length_cons, beq_eq_false_iff_ne, ne_eq]; omega
    simp [finalErr, h1]

theorem partial_success_renders_all_witness :
    ∃ err : CliError,
      do_machines false []
        [Event.data "dc1" [{ dc := "", id := "m1" }],
         Event.dcError "dc2" { dc := "", cause := "down" }] =
        .completed [Action.render (consume
            [Event.data "dc1" [{ dc := "", id := "m1" }],
             Event.dcError "dc2" { dc := "", cause := "down" }]).machines,
          Action.callback (some err)] ∧
      ∀ r ∈ [({ dc := "", id := "m1" } : Machine)],
        { r with dc := "dc1" } ∈ (consume
          [Event.data "dc1" [{ dc := "", id := "m1" }],
           Event.dcError "dc2" { dc := "", cause := "down" }]).machines :=
  partial_success_renders_all
    [Event.data "dc1" [{ dc := "", id := "m1" }],
     Event.dcError "dc2" { dc := "", cause := "down" }]
    "dc1" [{ dc := "", id := "m1" }] (by simp) (by decide)

/-- C7: for an empty DC set the run yields only the `Done` event, and a
stream with no `data` and no `dcError` events before `end` makes
`do_machines` render an empty record list and call back with no
error. -/
theorem empty_dc_set_clean :
    (∀ client, runEvents client [] = [Event.done]) ∧
    ∀ es : List Event, (∀ e ∈ es, isOutcome e = false) →
      do_machines false [] es =
        .completed [Action.render [], Action.callback none] := by
  constructor
  · intro client; rfl
  · intro es h
    have hm : es.flatMap taggedRecords = [] := by
      refine List.flatMap_eq_nil_iff.mpr fun e he => ?_
      cases e with
      | data dc l => simpa [isOutcome] using h _ he
      | dcError dc er => simp [taggedRecords]
      | done => simp [taggedRecords]
    have herr : es.flatMap taggedErrs = [] := by
      refine List.flatMap_eq_nil_iff.mpr fun e he => ?_
      cases e with
      | data dc l => simp [taggedErrs]
      | dcError dc er => simpa [isOutcome] using h _ he
      | done => simp [taggedErrs]
    rw [do_machines_run, consume_machines, hm, consume_errs, herr]; rfl

theorem empty_dc_set_clean_witness :
    runEvents clientW [] = [Event.done] ∧
    do_machines false [] [Event.done] =
      .completed [Action.render [], Action.callback none] :=
  ⟨empty_dc_set_clean.1 clientW,
   empty_dc_set_clean.2 [Event.done] (by decide)⟩

theorem dc_of_mem_taggedRecords (client : String → Except DcErr (List Machine))
    (x : String) (m : Machine) (hm : m ∈ taggedRecords (outcomeOf client x)) :
    m.dc = x := by
  cases h : client x with
  | ok recs =>
    simp only [outcomeOf, h, taggedRecords, List.mem_map] at hm
    obtain ⟨r, _, rfl⟩ := hm
    rfl
  | error e => simp [outcomeOf, h, taggedRecords] at hm

theorem dc_of_mem_taggedErrs (client : String → Except DcErr (List Machine))
    (x : String) (e : DcErr) (he : e ∈ taggedErrs (outcomeOf client x)) :
    e.dc = x := by
  cases h : client x with
  | ok recs => simp [outcomeOf, h, taggedErrs] at he
  | error cause =>
    simp only [outcomeOf, h, taggedErrs, List.mem_singleton] at he
    subst he
    rfl

theorem filter_taggedRecords_outcome
    (client : String → Except DcErr (List Machine)) (dc x : String) :
    (taggedRecords (outcomeOf client x)).filter (fun m => m.dc == dc) =
      if x = dc then taggedRecords (outcomeOf client dc) else [] := by
  by_cases hx : x = dc
  · subst hx
    rw [if_pos rfl]
    refine List.filter_eq_self.mpr fun m hm => ?_
    simp [dc_of_mem_taggedRecords client x m hm]
  · rw [if_neg hx]
    refine List.filter_eq_nil_iff.mpr fun m hm => ?_
    simp [dc_of_mem_taggedRecords client x m hm, hx]

theorem filter_taggedErrs_outcome
    (client : String → Except DcErr (List Machine)) (dc x : String) :
    (taggedErrs (outcomeOf client x)).filter (fun e => e.dc == dc) =
      if x = dc then taggedErrs (outcomeOf client dc) else [] := by
  by_cases hx : x = dc
  · subst hx
    rw [if_pos rfl]
    refine List.filter_eq_self.mpr fun e he => ?_
    simp [dc_of_mem_taggedErrs client x e he]
  · rw [if_neg hx]
    refine List.filter_eq_nil_iff.mpr fun e he => ?_
    simp [dc_of_mem_taggedErrs client x e he, hx]

theorem flatMap_if_single {β : Type} (sched : List String) (dc : String)
    (A : List β) (h : sched.count dc = 1) :
    sched.flatMap (fun x => if x = dc then A else []) = A := by
  induction sched with
  | nil => simp at h
  | cons x xs ih =>
    by_cases hx : x = dc
    · subst hx
      have hxs : xs.count x = 0 := by
        have := List.count_cons_self x xs
        omega
      have hnot : x ∉ xs := List.count_eq_zero.mp hxs
      have hnil : xs.flatMap (fun y => if y = x then A else []) = [] := by
        refine List.flatMap_eq_nil_iff.mpr fun y hy => ?_
        have hyx : ¬ y = x := fun hyx => hnot (hyx ▸ hy)
        simp [hyx]
      simp [List.flatMap_cons, hnil]
    · have hcount : xs.count dc = 1 := by
        rw [List.count_cons_of_ne (fun hdc => hx hdc.symm) xs] at h
        exact h
      simp [List.flatMap_cons, hx, ih hcount]

theorem machinesFor_runEvents
    (client : String → Except DcErr (List Machine)) (sched : List String)
    (dc : String) (h : sched.count dc = 1) :
    machinesFor dc (consume (runEvents client sched)) =
      taggedRecords (outcomeOf client dc) := by
  rw [machinesFor, consume_machines, runEvents, List.flatMap_append,
    List.flatMap_map]
  have hdone : List.flatMap [Event.done] taggedRecords = [] := rfl
  rw [hdone, List.append_nil, List.filter_flatMap]
  have hp : (fun a => (taggedRecords (outcomeOf client a)).filter
      (fun m => m.dc == dc)) =
      fun a => if a = dc then taggedRecords (outcomeOf client dc) else [] :=
    funext fun a => filter_taggedRecords_outcome client dc a
  rw [hp, flatMap_if_single sched dc _ h]

theorem errsFor_runEvents
    (client : String → Except DcErr (List Machine)) (sched : List String)
    (dc : String) (h : sched.count dc = 1) :
    errsFor dc (consume (runEvents client sched)) =
      taggedErrs (outcomeOf client dc) := by
  rw [errsFor, consume_errs, runEvents, List.flatMap_append,
    List.flatMap_map]
  have hdone : List.flatMap [Event.done] taggedErrs = [] := rfl
  rw [hdone, List.append_nil, List.filter_flatMap]
  have hp : (fun a => (taggedErrs (outcomeOf client a)).filter
      (fun e => e.dc == dc)) =
      fun a => if a = dc then taggedErrs (outcomeOf client dc) else [] :=
    funext fun a => filter_taggedErrs_outcome client dc a
  rw [hp, flatMap_if_single sched dc _ h]

/-- C8: two runs of the same query against the same DC set with the same
backend behaviour — in any two completion orders — accumulate, for every
DC, the same tagged records and the same tagged errors: the aggregate
result is order-insensitive by DC, and the accumulation is a
deterministic function of the event stream. -/
theorem run_idempotent_by_dc (dcs sched1 sched2 : List String)
    (client : String → Except DcErr (List Machine))
    (hnd : dcs.Nodup) (h1 : sched1.Perm dcs) (h2 : sched2.Perm dcs) :
    ∀ dc ∈ dcs,
      machinesFor dc (consume (runEvents client sched1)) =
        machinesFor dc (consume (runEvents client sched2)) ∧
      errsFor dc (consume (runEvents client sched1)) =
        errsFor dc (consume (runEvents client sched2)) := by
  intro dc hdc
  have c1 : sched1.count dc = 1 :=
    (h1.count_eq dc).trans (List.count_eq_one_of_mem hnd hdc)
  have c2 : sched2.count dc = 1 :=
    (h2.count_eq dc).trans (List.count_eq_one_of_mem hnd hdc)
  exact ⟨(machinesFor_runEvents client sched1 dc c1).trans
      (machinesFor_runEvents client sched2 dc c2).symm,
    (errsFor_runEvents client sched1 dc c1).trans
      (errsFor_runEvents client sched2 dc c2).symm⟩

theorem run_idempotent_by_dc_witness :
    machinesFor "us-east"
        (consume (runEvents clientW ["us-west", "us-east"])) =
      machinesFor "us-east"
        (consume (runEvents clientW ["us-east", "us-west"])) ∧
    errsFor "us-west"
        (consume (runEvents clientW ["us-west", "us-east"])) =
      errsFor "us-west"
        (consume (runEvents clientW ["us-east", "us-west"])) := by
  have h := run_idempotent_by_dc ["us-west", "us-east"]
    ["us-west", "us-east"] ["us-east", "us-west"] clientW (by decide)
    (List.Perm.refl _) (List.Perm.swap "us-west" "us-east" [])
  exact ⟨(h "us-east" (by decide)).1, (h "us-west" (by decide)).2⟩

/-- C9 counterexample: an invocation with two positional arguments but
the help option set does not fail with a too-many-args error — the help
check comes first, so help is shown instead. -/
theorem too_many_args_help_counterexample :
    do_machines true ["a", "b"] [] = CmdResult.helpShown ∧
    isTooManyArgs (do_machines true ["a", "b"] []) = false :=
  ⟨rfl, rfl⟩

/-- C9 amended: with the help option not set, an invocation of
`do_machines`, `do_profile` or `do_dcs` with more than one positional
argument fails with the too-many-args error, with a result that is
independent of the stream, the stored profiles and the configured DC
table (so no configuration is read and no query issued), and with the
state returned unchanged. -/
theorem too_many_args_rejected_early (args : List String)
    (ha : 1 < args.length) :
    (∀ stream, do_machines false args stream =
      .argError ("too many args: " ++ String.intercalate "," args)) ∧
    (∀ st, do_profile false args st =
      (.argError ("too many args: " ++ String.intercalate "," args), st)) ∧
    (∀ dcs, do_dcs false args dcs =
      .argError ("too many args: " ++ String.intercalate "," args)) := by
  refine ⟨fun stream => ?_, fun st => ?_, fun dcs => ?_⟩ <;>
    simp [do_machines, do_profile, do_dcs, ha]

theorem too_many_args_rejected_early_witness :
    do_machines false ["a", "b"] [] =
      .argError ("too many args: " ++ String.intercalate "," ["a", "b"]) ∧
    do_profile false ["a", "b"] stW =
      (.argError ("too many args: " ++ String.intercalate "," ["a", "b"]),
        stW) ∧
    do_dcs false ["a", "b"] [] =
      .argError ("too many args: " ++ String.intercalate "," ["a", "b"]) := by
  have h := too_many_args_rejected_early ["a", "b"] (by decide)
  exact ⟨h.1 [], h.2.1 stW, h.2.2 []⟩

theorem getD_annotateProfile_ne (heap : Heap) (r : Nat) (c : String)
    (j : Nat) (h : r ≠ j) :
    (annotateProfile heap r c).getD j [] = heap.getD j [] := by
  rw [List.getD_eq_getElem?_getD, List.getD_eq_getElem?_getD]
  unfold annotateProfile
  rw [List.getElem?_set_ne h]

theorem foldl_annotate_getD (refs : List Nat) (heap : Heap) (c : String)
    (j : Nat) (h : ∀ r ∈ refs, r ≠ j) :
    (refs.foldl (fun hp r => annotateProfile hp r c) heap).getD j [] =
      heap.getD j [] := by
  induction refs generalizing heap with
  | nil => rfl
  | cons r rs ih =>
    rw [List.foldl_cons,
      ih _ (fun r' hr' => h r' (List.mem_cons_of_mem r hr')),
      getD_annotateProfile_ne heap r c j (h r (List.mem_cons_self r rs))]

/-- C10: `do_profile` never mutates the stored profile configuration:
the annotation loop runs over a deep copy, so for every invocation the
profile list and every original profile object are unchanged after the
command completes. -/
theorem do_profile_preserves_profiles (help : Bool) (args : List String)
    (st : SdcState) (hvalid : ∀ r ∈ st.profileRefs, r < st.heap.length) :
    (do_profile help args st).2.profileRefs = st.profileRefs ∧
    ∀ r ∈ st.profileRefs,
      (do_profile help args st).2.heap.getD r [] = st.heap.getD r [] := by
  refine ⟨?_, fun r hr => ?_⟩
  · unfold do_profile
    split
    · rfl
    · split
      · rfl
      · rfl
  · unfold do_profile
    split
    · rfl
    · split
      · rfl
      · show ((deepObjCopy st.heap st.profileRefs).2.foldl
            (fun hp r => annotateProfile hp r st.currProfileName)
            (deepObjCopy st.heap st.profileRefs).1).getD r [] =
          st.heap.getD r []
        have hfresh : ∀ r' ∈ (deepObjCopy st.heap st.profileRefs).2,
            r' ≠ r := by
          intro r' hr'
          simp only [deepObjCopy, List.mem_map, List.mem_range] at hr'
          obtain ⟨i, _, rfl⟩ := hr'
          have := hvalid r hr
          omega
        rw [foldl_annotate_getD _ _ _ _ hfresh]
        have hlt := hvalid r hr
        show (st.heap ++ st.profileRefs.map
            (fun r => st.heap.getD r [])).getD r [] = st.heap.getD r []
        rw [List.getD_eq_getElem?_getD, List.getD_eq_getElem?_getD,
          List.getElem?_append_left hlt]

theorem do_profile_preserves_profiles_witness :
    (do_profile false [] stW).2.profileRefs = stW.profileRefs ∧
    (do_profile false [] stW).2.heap.getD 0 [] = stW.heap.getD 0 [] ∧
    (do_profile false [] stW).2.heap.getD 1 [] = stW.heap.getD 1 [] := by
  have h := do_profile_preserves_profiles false [] stW (by decide)
  exact ⟨h.1, h.2 0 (by decide), h.2 1 (by decide)⟩

end Sdc
